import Mathlib

/-!
A shallow embedding of the mind_taska mindmap-to-task pipeline
(`mind_taska/mind_taska.py`): tree flattening with attribute inheritance
(`MindTaska._parse_node`, `MindTaska.extract_tasks`), statistics
computation (`MindTaska.get_stat`), diffing against the previously stored
task table (`MindTaska.diff_stat`) and the in-memory history store
(`MindTaska.update_data`).

Python task-record dictionaries become a structure with optional fields;
xmltodict trees become a mutual inductive type whose `topic` slot is either
absent, a single child dictionary or a list of child dictionaries, exactly
as xmltodict produces them.  The mutating `tasks.append` accumulator of
`_parse_node` is rendered as the returned list of records, in append order.
The `date` field of a stat row (wall-clock time) is outside the model.
The configuration's two mapping tables are modelled as present association
lists (when a table is `None` the Python code dies with an uncaught
`AttributeError` before any behaviour under study happens).
-/

namespace MT

/-- One flattened task record: the dictionary built in `_parse_node`.
Every key is always present; `type`, `status` and `worker` may hold `None`. -/
structure Record where
  task : String
  project : String
  type : Option String
  status : Option String
  worker : Option String
deriving DecidableEq, Repr

mutual
/-- A mindmap topic node as xmltodict presents it: the optional attributes
`@text`, `@shape`, `@bgColor`, the optional `eicon/@id` value, and the
`topic` slot holding the children. -/
inductive Node : Type where
  | mk (text shape bgColor eiconId : Option String) (topic : TopicVal) : Node

/-- The value stored under the key `topic`: absent, a single child
dictionary, or a list of child dictionaries. -/
inductive TopicVal : Type where
  | absent : TopicVal
  | single : Node → TopicVal
  | tlist : NodeList → TopicVal

/-- A list of child nodes, kept inside the mutual inductive. -/
inductive NodeList : Type where
  | nil : NodeList
  | cons : Node → NodeList → NodeList
end

/-- Projection: the `@text` attribute. -/
def Node.text : Node → Option String
  | .mk t _ _ _ _ => t

/-- Projection: the `@shape` attribute. -/
def Node.shape : Node → Option String
  | .mk _ s _ _ _ => s

/-- Projection: the `@bgColor` attribute. -/
def Node.bgColor : Node → Option String
  | .mk _ _ b _ _ => b

/-- Projection: the `eicon/@id` value (`node.get("eicon", {}).get("@id")`). -/
def Node.eiconId : Node → Option String
  | .mk _ _ _ e _ => e

/-- Projection: the `topic` slot. -/
def Node.topic : Node → TopicVal
  | .mk _ _ _ _ tp => tp

/-- The configuration fields the flattener and differ read
(`MTConfig.shape_type_mapping`, `MTConfig.color_status_mapping`),
as string-to-string association lists. -/
structure MTConfig where
  shape_type_mapping : List (String × String)
  color_status_mapping : List (String × String)

/-- Truthiness of an optional string in Python: `None` and the empty string
are falsy, every other string is truthy. -/
def truthy : Option String → Bool
  | none => false
  | some s => s != ""

/-- Python `d.get(k)` on a string-keyed mapping where the key expression is
itself optional: `mapping.get(node.get("@shape"))` returns `None` when the
attribute is absent (a JSON-derived mapping never has `None` as a key). -/
def mget (m : List (String × String)) (k : Option String) : Option String :=
  match k with
  | none => none
  | some s => (m.find? (fun p => p.1 == s)).map (fun p => p.2)

/-- Python `a or b` on optional strings: `a` when truthy, otherwise `b`. -/
def pyOr (a b : Option String) : Option String :=
  if truthy a then a else b

/-- Python `parent.get(key)` where `parent` is either the empty dictionary
(from `parent or {}`) or a full record dictionary. -/
def parentGet (f : Record → Option String) : Option Record → Option String
  | none => none
  | some r => f r

/-- The record the `try` block of `_parse_node` builds for one node, or
`none` when the lookup `node["@text"]` raises `KeyError` (the only statement
in the block that can raise one: every other access uses `.get`). -/
def recordOf (cfg : MTConfig) (project : String) (parent : Option Record)
    (node : Node) : Option Record :=
  match node.text with
  | none => none
  | some t =>
      some { task := t
             project := project
             type := pyOr (mget cfg.shape_type_mapping node.shape)
                          (parentGet Record.type parent)
             status := pyOr (mget cfg.color_status_mapping node.bgColor)
                            (parentGet Record.status parent)
             worker := node.eiconId }

/-- Normalisation of the `topic` slot performed by `_parse_node`:
`topic = node.get("topic", [])` followed by
`topic if isinstance(topic, list) else [topic]`. -/
def TopicVal.normalize : TopicVal → NodeList
  | .absent => .nil
  | .single n => .cons n .nil
  | .tlist ns => ns

mutual
/-- `MindTaska._parse_node`: build this node's record (appending it to the
output when the `try` block succeeds), then recurse into the children,
passing `result` — which is still `None` after a `KeyError` — as their
parent. -/
def parseNode (cfg : MTConfig) (node : Node) (project : String)
    (parent : Option Record) : List Record :=
  match node with
  | .mk t sh bg ei tp =>
      let result := recordOf cfg project parent (.mk t sh bg ei tp)
      result.toList ++ parseTopic cfg tp project result

/-- The loop `for t in topic: self._parse_node(tasks, t, project, result)`
over the normalised `topic` slot. -/
def parseTopic (cfg : MTConfig) (tp : TopicVal) (project : String)
    (parent : Option Record) : List Record :=
  match tp with
  | .absent => []
  | .single n => parseNode cfg n project parent
  | .tlist ns => parseNodes cfg ns project parent

/-- The same loop over an explicit list of children. -/
def parseNodes (cfg : MTConfig) (ns : NodeList) (project : String)
    (parent : Option Record) : List Record :=
  match ns with
  | .nil => []
  | .cons n rest =>
      parseNode cfg n project parent ++ parseNodes cfg rest project parent
end

/-- `MindTaska.extract_tasks` after xmltodict parsing: iterate the projects
under `xml_data["map"]["topic"]["topic"]`, flattening each with its own
`@text` as project name.  The lookup `project["@text"]` is outside any
`try`, so a missing label is a fatal `KeyError`, modelled as `Except.error`. -/
def extract_tasks (cfg : MTConfig) (mainNode : List Node) :
    Except String (List Record) :=
  mainNode.foldlM
    (fun acc p =>
      match p.text with
      | none => .error "KeyError: @text"
      | some name => .ok (acc ++ parseNode cfg p name none))
    []

/-- Indexing into a child list. -/
def NodeList.get? : NodeList → Nat → Option Node
  | .nil, _ => none
  | .cons n _, 0 => some n
  | .cons _ rest, i + 1 => rest.get? i

/-- Conversion of a child list to a plain Lean list. -/
def NodeList.toList : NodeList → List Node
  | .nil => []
  | .cons n rest => n :: rest.toList

/-- The `i`-th child of a `topic` slot, counted in the normalised child
sequence the recursion of `_parse_node` iterates. -/
def childAt (tp : TopicVal) (i : Nat) : Option Node :=
  tp.normalize.get? i

/-- The chain of nodes visited when following a path of child indices from a
root node: the root, then the chosen child at each step, down to and
including the target node.  `none` when the path leaves the tree. -/
def nodeChain : Node → List Nat → Option (List Node)
  | n, [] => some [n]
  | n, i :: is =>
      (childAt n.topic i).bind (fun c => (nodeChain c is).map (fun l => n :: l))

/-- The `result` value `_parse_node` passes down a chain of nodes: each step
replaces it by the record built for the next node (or by `None` when that
record construction failed), starting from the given parent. -/
def recordAlong (cfg : MTConfig) (proj : String) :
    Option Record → List Node → Option Record
  | parent, [] => parent
  | parent, n :: rest => recordAlong cfg proj (recordOf cfg proj parent n) rest

/-- The value resolved by the nearest ancestor in a root-first ancestor
list: the mapping value of the last (deepest) ancestor whose own attribute
lookup yields a Python-truthy value, and `none` when no ancestor ever
resolved one. -/
def nearestResolved (m : List (String × String)) (f : Node → Option String)
    (anc : List Node) : Option String :=
  match anc.reverse.find? (fun a => truthy (mget m (f a))) with
  | none => none
  | some a => mget m (f a)

mutual
/-- Pre-order list of the `@text` attributes of a node and all its
descendants, in document order. -/
def preTexts : Node → List (Option String)
  | .mk t _ _ _ tp => t :: preTextsTopic tp

/-- Pre-order `@text` attributes of the children held by a `topic` slot. -/
def preTextsTopic : TopicVal → List (Option String)
  | .absent => []
  | .single n => preTexts n
  | .tlist ns => preTextsList ns

/-- Pre-order `@text` attributes of an explicit child list. -/
def preTextsList : NodeList → List (Option String)
  | .nil => []
  | .cons n rest => preTexts n ++ preTextsList rest
end

mutual
/-- Whether every node of a tree carries an `@text` attribute. -/
def allText : Node → Bool
  | .mk t _ _ _ tp => t.isSome && allTextTopic tp

/-- Whether every node below a `topic` slot carries an `@text` attribute. -/
def allTextTopic : TopicVal → Bool
  | .absent => true
  | .single n => allText n
  | .tlist ns => allTextList ns

/-- Whether every node of an explicit child list carries `@text`. -/
def allTextList : NodeList → Bool
  | .nil => true
  | .cons n rest => allText n && allTextList rest
end

/-- One stat row as `get_stat` builds it, minus the wall-clock `date` field:
the three fixed counters plus one per-worker counter keyed by the worker
string, in the order `tasks["worker"].unique()` yields the workers. -/
structure Stat where
  openedTasks : Nat
  newTasks : Nat
  closedTasks : Nat
  workerCounts : List (String × Nat)
deriving DecidableEq, Repr

/-- Pandas `series.unique()` restricted to what the code consumes:
the distinct values in order of first appearance. -/
def uniqueVals (l : List (Option String)) : List (Option String) :=
  l.foldl (fun acc w => if w ∈ acc then acc else acc ++ [w]) []

/-- The row filter `tasks[(tasks["worker"] == w) & (tasks["status"] != "complete")]`
followed by `.shape[0]`; a `None` status is not equal to "complete". -/
def workerOpenCount (tasks : List Record) (w : String) : Nat :=
  (tasks.filter
    (fun t => t.worker == some w && !(t.status == some "complete"))).length

/-- `MindTaska.get_stat`: opened-task count, zero-initialised new/closed
counters, and one counter per non-`None` worker value. -/
def get_stat (tasks : List Record) : Stat :=
  { openedTasks := (tasks.filter (fun t => !(t.status == some "complete"))).length
    newTasks := 0
    closedTasks := 0
    workerCounts :=
      (uniqueVals (tasks.map Record.worker)).filterMap
        (fun w =>
          match w with
          | none => none
          | some s => some (s, workerOpenCount tasks s)) }

/-- The running pair (`new_tasks_count`, `closed_tasks_count`) of
`diff_stat`. -/
structure DiffCounts where
  newTasks : Nat
  closedTasks : Nat
deriving DecidableEq, Repr

/-- The row filter
`self.tasks[(self.tasks["task"] == t["task"]) & (self.tasks["project"] == t["project"])]`. -/
def sameTask (prev : List Record) (t : Record) : List Record :=
  prev.filter (fun p => p.task == t.task && p.project == t.project)

/-- One iteration of the `for i, t in new_tasks.iterrows()` loop of
`diff_stat`: the `if / elif / elif` chain on the current record `t` against
the first matching previous record (`same_task.iloc[0]`). -/
def diffStep (prev : List Record) (acc : DiffCounts) (t : Record) : DiffCounts :=
  match sameTask prev t with
  | [] =>
      if ¬ t.status = some "complete" then
        { acc with newTasks := acc.newTasks + 1 }
      else acc
  | p :: _ =>
      if ¬ p.status = some "complete" ∧ t.status = some "complete" then
        { acc with closedTasks := acc.closedTasks + 1 }
      else if t.status = some "complite" ∧ ¬ p.status = some "complete" then
        { acc with newTasks := acc.newTasks + 1 }
      else acc

/-- The whole counting loop of `diff_stat`. -/
def diffCounts (prev newTasks : List Record) : DiffCounts :=
  newTasks.foldl (diffStep prev) ⟨0, 0⟩

/-- `MindTaska.diff_stat`: when `config.excel_path` is `None` (so no previous
task table was loaded, modelled as `prev = none`) the snapshot is returned
unchanged; otherwise the two counters are overwritten with the loop's
results. -/
def diff_stat (prev : Option (List Record)) (newTasks : List Record)
    (newStats : Stat) : Stat :=
  match prev with
  | none => newStats
  | some prevTasks =>
      let c := diffCounts prevTasks newTasks
      { newStats with newTasks := c.newTasks, closedTasks := c.closedTasks }

/-- The in-memory state `self.tasks` / `self.stats` of a `MindTaska` object;
both are `None` when no excel path is configured. -/
structure Store where
  tasks : Option (List Record)
  stats : Option (List Stat)
deriving DecidableEq, Repr

/-- Pandas `pd.concat([a, b])` for the call in `update_data`: a `None`
member is silently dropped. -/
def pdConcat (a : Option (List Stat)) (b : List Stat) : List Stat :=
  a.getD [] ++ b

/-- `MindTaska.update_data`: replace `self.tasks` wholesale and set
`self.stats` to the concatenation of the old stat rows with the new ones. -/
def update_data (st : Store) (newTasks : List Record) (newStats : List Stat) :
    Store :=
  { tasks := some newTasks
    stats := some (pdConcat st.stats newStats) }

/-- The first previous record matching the key (task, project) of a new
record: `same_task.iloc[0]` in `diff_stat`, here expressed through `find?`. -/
def firstMatch (prev : List Record) (t : Record) : Option Record :=
  prev.find? (fun p => p.task == t.task && p.project == t.project)

/-- The branch taken by one `diff_stat` iteration as a function of the first
matching previous record alone. -/
def diffStepH (acc : DiffCounts) (t : Record) : Option Record → DiffCounts
  | none =>
      if ¬ t.status = some "complete" then
        { acc with newTasks := acc.newTasks + 1 }
      else acc
  | some p =>
      if ¬ p.status = some "complete" ∧ t.status = some "complete" then
        { acc with closedTasks := acc.closedTasks + 1 }
      else if t.status = some "complite" ∧ ¬ p.status = some "complete" then
        { acc with newTasks := acc.newTasks + 1 }
      else acc

/-! Concrete fixtures used by witnesses and counterexamples: a small mapping
configuration, a few trees and a few task records. -/

/-- Fixture configuration: shape `s` means type `bug`, colour `c` means
status `complete`. -/
def cfgX : MTConfig := ⟨[("s", "bug")], [("c", "complete")]⟩

/-- Fixture: a leaf node with text `C` and no styling. -/
def leafC : Node := .mk (some "C") none none none .absent

/-- Fixture: a node without `@text` (its record construction fails) holding
the single child `leafC`. -/
def failB : Node := .mk none none none none (.single leafC)

/-- Fixture: a root with text `A` and shape `s`, holding `failB`. -/
def rootA : Node := .mk (some "A") (some "s") none none (.single failB)

/-- Fixture: a leaf with text `D` and no styling. -/
def leafD : Node := .mk (some "D") none none none .absent

/-- Fixture: a middle node with text `E` and no styling, holding `leafD`. -/
def midE : Node := .mk (some "E") none none none (.single leafD)

/-- Fixture: a root with text `F` and shape `s`, holding `midE`. -/
def rootF : Node := .mk (some "F") (some "s") none none (.single midE)

/-- Fixture: the record flattened for `rootA` under project `P`. -/
def recA : Record := ⟨"A", "P", some "bug", none, none⟩

/-- Fixture: the record flattened for `leafC` under parent `recA`. -/
def recC : Record := ⟨"C", "P", some "bug", none, none⟩

/-- Fixture: an open task without worker. -/
def recT : Record := ⟨"T", "P", none, none, none⟩

/-- Fixture: the same task as `recT`, completed. -/
def recTdone : Record := ⟨"T", "P", none, some "complete", none⟩

/-- Fixture: a completed task on a key of its own. -/
def recU : Record := ⟨"U", "P", none, some "complete", none⟩

/-- Fixture: a task carrying the sentinel status string `complite`. -/
def recComplite : Record := ⟨"V", "P", none, some "complite", none⟩

/-- Fixture: an open task assigned to worker `alice`. -/
def recW : Record := ⟨"W", "P", none, none, some "alice"⟩

/-- Fixture: a stat row with no worker counters. -/
def stat0 : Stat := ⟨1, 0, 0, []⟩

/-- Fixture: a second stat row. -/
def stat1 : Stat := ⟨2, 1, 0, [("alice", 1)]⟩

/-! Unfolding lemmas for the record builder and the mutual traversal. -/

theorem recordOf_none (cfg : MTConfig) (proj : String) (parent : Option Record)
    (n : Node) (h : n.text = none) : recordOf cfg proj parent n = none := by
  unfold recordOf
  rw [h]

theorem recordOf_some (cfg : MTConfig) (proj : String) (parent : Option Record)
    (n : Node) (t : String) (h : n.text = some t) :
    recordOf cfg proj parent n =
      some { task := t
             project := proj
             type := pyOr (mget cfg.shape_type_mapping n.shape)
                          (parentGet Record.type parent)
             status := pyOr (mget cfg.color_status_mapping n.bgColor)
                            (parentGet Record.status parent)
             worker := n.eiconId } := by
  unfold recordOf
  rw [h]

theorem parseNode_eq (cfg : MTConfig) (n : Node) (proj : String)
    (parent : Option Record) :
    parseNode cfg n proj parent =
      (recordOf cfg proj parent n).toList ++
        parseTopic cfg n.topic proj (recordOf cfg proj parent n) :=
  match n with
  | .mk _ _ _ _ _ => rfl

mutual
theorem parseNode_project (cfg : MTConfig) (n : Node) (proj : String)
    (parent : Option Record) :
    ∀ r ∈ parseNode cfg n proj parent, r.project = proj := by
  match n with
  | .mk t sh bg ei tp =>
    intro r hr
    rw [parseNode_eq] at hr
    rcases List.mem_append.mp hr with h | h
    · cases t with
      | none =>
          rw [recordOf_none cfg proj parent (.mk none sh bg ei tp) rfl] at h
          simp at h
      | some tx =>
          rw [recordOf_some cfg proj parent (.mk (some tx) sh bg ei tp) tx rfl] at h
          simp at h
          rw [h]
    · exact parseTopic_project cfg tp proj _ r (by simpa [Node.topic] using h)

theorem parseTopic_project (cfg : MTConfig) (tp : TopicVal) (proj : String)
    (parent : Option Record) :
    ∀ r ∈ parseTopic cfg tp proj parent, r.project = proj := by
  match tp with
  | .absent => intro r hr; simp [parseTopic] at hr
  | .single n => exact parseNode_project cfg n proj parent
  | .tlist ns => exact parseNodes_project cfg ns proj parent

theorem parseNodes_project (cfg : MTConfig) (ns : NodeList) (proj : String)
    (parent : Option Record) :
    ∀ r ∈ parseNodes cfg ns proj parent, r.project = proj := by
  match ns with
  | .nil => intro r hr; simp [parseNodes] at hr
  | .cons nn rest =>
    intro r hr
    have he : parseNodes cfg (.cons nn rest) proj parent =
        parseNode cfg nn proj parent ++ parseNodes cfg rest proj parent := rfl
    rw [he] at hr
    rcases List.mem_append.mp hr with h | h
    · exact parseNode_project cfg nn proj parent r h
    · exact parseNodes_project cfg rest proj parent r h
end

theorem sameTask_head? (prev : List Record) (t : Record) :
    (sameTask prev t).head? = firstMatch prev t :=
  List.filter_head? _ prev

theorem diffStep_eq (prev : List Record) (acc : DiffCounts) (t : Record) :
    diffStep prev acc t = diffStepH acc t (firstMatch prev t) := by
  have h := sameTask_head? prev t
  unfold diffStep
  cases hs : sameTask prev t with
  | nil =>
      rw [hs] at h
      simp only [List.head?_nil] at h
      rw [← h]
      rfl
  | cons p rest =>
      rw [hs] at h
      simp only [List.head?_cons] at h
      rw [← h]
      rfl

/-- C5: every record produced by a flatten call carries, at any nesting
depth, the project label passed at the top of that call. -/
theorem claim_C5 (cfg : MTConfig) (n : Node) (proj : String)
    (parent : Option Record) :
    ∀ r ∈ parseNode cfg n proj parent, r.project = proj :=
  parseNode_project cfg n proj parent

/-- Witness for C5 at a concrete tree: the record flattened for the root
`rootF` carries project label `P`. -/
theorem claim_C5_witness :
    (Record.mk "F" "P" (some "bug") none none).project = "P" :=
  claim_C5 cfgX rootF "P" none (Record.mk "F" "P" (some "bug") none none)
    (by decide)

/-- C8: `update_data` replaces the task table wholesale with the new tasks
and appends the new stat rows to the stored stat rows, so every previously
stored stat row is still present afterwards. -/
theorem claim_C8 (st : Store) (newTasks : List Record) (newStats : List Stat) :
    (update_data st newTasks newStats).tasks = some newTasks ∧
    (update_data st newTasks newStats).stats =
      some (st.stats.getD [] ++ newStats) ∧
    ∀ rows r, st.stats = some rows → r ∈ rows →
      r ∈ ((update_data st newTasks newStats).stats.getD []) := by
  refine ⟨rfl, rfl, ?_⟩
  intro rows r hrows hr
  simp [update_data, pdConcat, hrows]
  exact Or.inl hr

/-- Witness for C8 at a concrete store: the previous stat row `stat0`
survives an update that replaces the tasks and appends `stat1`. -/
theorem claim_C8_witness :
    (update_data ⟨none, some [stat0]⟩ [recT] [stat1]).tasks = some [recT] ∧
    stat0 ∈ ((update_data ⟨none, some [stat0]⟩ [recT] [stat1]).stats.getD []) := by
  have h := claim_C8 ⟨none, some [stat0]⟩ [recT] [stat1]
  exact ⟨h.1, h.2.2 [stat0] stat0 rfl (by decide)⟩

/-- C9: when the first previous record matching the new record's key is
already `complete`, the differ step changes neither counter, whatever the
new record's status is. -/
theorem claim_C9 (prev : List Record) (acc : DiffCounts) (t p : Record)
    (h1 : firstMatch prev t = some p) (h2 : p.status = some "complete") :
    diffStep prev acc t = acc := by
  rw [diffStep_eq, h1]
  simp [diffStepH, h2]

/-- Witness for C9: the completed previous record `recTdone` matches the
reopened `recT`, and the step leaves the counters at zero. -/
theorem claim_C9_witness : diffStep [recTdone] ⟨0, 0⟩ recT = ⟨0, 0⟩ :=
  claim_C9 [recTdone] ⟨0, 0⟩ recT recTdone (by decide) rfl

/-- C4: with no previous record on the new record's key, `new tasks` is
incremented exactly when the new status is not `complete`; with a first
match that is not `complete` while the new status is `complete`,
`closed tasks` is incremented; and a differ step depends on the previous
table only through the first matching record. -/
theorem claim_C4 (prev : List Record) (acc : DiffCounts) (t : Record) :
    (firstMatch prev t = none →
      diffStep prev acc t =
        if ¬ t.status = some "complete" then
          { acc with newTasks := acc.newTasks + 1 }
        else acc) ∧
    (∀ p, firstMatch prev t = some p → ¬ p.status = some "complete" →
      t.status = some "complete" →
      diffStep prev acc t = { acc with closedTasks := acc.closedTasks + 1 }) ∧
    (∀ prev2, firstMatch prev t = firstMatch prev2 t →
      diffStep prev acc t = diffStep prev2 acc t) := by
  refine ⟨?_, ?_, ?_⟩
  · intro h
    rw [diffStep_eq, h]
    rfl
  · intro p hp hps hts
    rw [diffStep_eq, hp]
    simp only [diffStepH]
    rw [if_pos ⟨hps, hts⟩]
  · intro prev2 h
    rw [diffStep_eq, diffStep_eq, h]

/-- Witness for C4 covering its three scenarios at concrete inputs: an
unmatched open record increments `new tasks`, an unmatched completed record
increments nothing, a newly completed matched record increments
`closed tasks`, and a step only consults the first match. -/
theorem claim_C4_witness :
    diffStep [] ⟨0, 0⟩ recT = ⟨1, 0⟩ ∧
    diffStep [] ⟨0, 0⟩ recU = ⟨0, 0⟩ ∧
    diffStep [recT] ⟨0, 0⟩ recTdone = ⟨0, 1⟩ ∧
    diffStep [recTdone] ⟨0, 0⟩ recT = diffStep [recTdone, recT] ⟨0, 0⟩ recT := by
  refine ⟨?_, ?_, ?_, ?_⟩
  · exact ((claim_C4 [] ⟨0, 0⟩ recT).1 rfl).trans (by decide)
  · exact ((claim_C4 [] ⟨0, 0⟩ recU).1 rfl).trans (by decide)
  · exact (claim_C4 [recT] ⟨0, 0⟩ recTdone).2.1 recT (by decide) (by decide) rfl
  · exact (claim_C4 [recTdone] ⟨0, 0⟩ recT).2.2 [recTdone, recT] (by decide)

/-- C2, evaluated at the failing input: in the tree `rootA → failB → leafC`
where `failB` lacks `@text`, the node `failB` yields no record and `leafC`
is still visited — but `leafC`'s record has an absent type instead of the
type `bug` that `rootA`, its last successfully resolved ancestor, carries:
`_parse_node` passes the `None` left in `result` as the children's parent,
so the inheritance chain is broken, against the claim and the spec's stated
intent. -/
theorem claim_C2_code :
    (parseNode cfgX rootA "P" none).map Record.task = ["A", "C"] ∧
    (parseNode cfgX rootA "P" none).map Record.type = [some "bug", none] := by
  decide

/-- C10: a node yields no record exactly when it lacks `@text` (its children
are then still traversed); a node with `@text` always yields a record,
whatever its other fields; and a missing `@shape`, `@bgColor` or assignee
leads to an inherited type, an inherited status, or an absent worker. -/
theorem claim_C10 (cfg : MTConfig) (proj : String) (parent : Option Record)
    (n : Node) :
    (n.text = none →
      parseNode cfg n proj parent = parseTopic cfg n.topic proj none) ∧
    (∀ t, n.text = some t → ∃ r, recordOf cfg proj parent n = some r ∧
      parseNode cfg n proj parent = r :: parseTopic cfg n.topic proj (some r)) ∧
    (∀ r, recordOf cfg proj parent n = some r →
      (n.shape = none → r.type = parentGet Record.type parent) ∧
      (n.bgColor = none → r.status = parentGet Record.status parent) ∧
      (n.eiconId = none → r.worker = none)) := by
  refine ⟨?_, ?_, ?_⟩
  · intro h
    rw [parseNode_eq, recordOf_none cfg proj parent n h]
    rfl
  · intro t ht
    refine ⟨_, recordOf_some cfg proj parent n t ht, ?_⟩
    rw [parseNode_eq, recordOf_some cfg proj parent n t ht]
    rfl
  · intro r hr
    cases hn : n.text with
    | none => rw [recordOf_none cfg proj parent n hn] at hr; cases hr
    | some t =>
        rw [recordOf_some cfg proj parent n t hn] at hr
        cases hr
        refine ⟨?_, ?_, ?_⟩
        · intro hsh; simp [hsh, mget, pyOr, truthy]
        · intro hbg; simp [hbg, mget, pyOr, truthy]
        · intro hei; simp [hei]

/-- Witness for C10 at concrete nodes: `failB` (no `@text`) contributes no
record while its children are still traversed; `leafC` (with `@text`, no
other fields) does yield a record; and its missing `@shape` makes the type
inherit from the parent record `recA`. -/
theorem claim_C10_witness :
    (parseNode cfgX failB "P" none = parseTopic cfgX failB.topic "P" none) ∧
    (∃ r, recordOf cfgX "P" (some recA) leafC = some r ∧
      parseNode cfgX leafC "P" (some recA) =
        r :: parseTopic cfgX leafC.topic "P" (some r)) ∧
    recC.type = parentGet Record.type (some recA) := by
  refine ⟨(claim_C10 cfgX "P" none failB).1 rfl,
    (claim_C10 cfgX "P" (some recA) leafC).2.1 "C" rfl,
    ((claim_C10 cfgX "P" (some recA) leafC).2.2 recC (by decide)).1 rfl⟩

theorem foldl_fixed {α β : Type} (f : β → α → β) (l : List α)
    (h : ∀ a ∈ l, ∀ acc, f acc a = acc) : ∀ init, l.foldl f init = init := by
  induction l with
  | nil => intro init; rfl
  | cons x xs ih =>
      intro init
      rw [List.foldl_cons, h x (List.mem_cons_self x xs) init]
      exact ih (fun a ha acc => h a (List.mem_cons_of_mem x ha) acc) init

/-- C3 as amended: on a task table free of the sentinel status `complite`
and in which records sharing a (task, project) key share one status, running
the differ against an identical previous table yields zero new and zero
closed tasks. -/
theorem claim_C3 (tasks : List Record) (st : Stat)
    (hnc : ∀ t ∈ tasks, ¬ t.status = some "complite")
    (hcons : ∀ t ∈ tasks, ∀ p ∈ tasks, t.task = p.task → t.project = p.project →
      t.status = p.status) :
    (diff_stat (some tasks) tasks st).newTasks = 0 ∧
    (diff_stat (some tasks) tasks st).closedTasks = 0 := by
  have hstep : ∀ t ∈ tasks, ∀ acc, diffStep tasks acc t = acc := by
    intro t ht acc
    have hself : ¬ firstMatch tasks t = none := by
      intro h
      have hall := List.find?_eq_none.mp h t ht
      simp at hall
    cases hp : firstMatch tasks t with
    | none => exact absurd hp hself
    | some p =>
        have hpm : p ∈ tasks := List.mem_of_find?_eq_some hp
        have hpred := List.find?_some hp
        simp only [Bool.and_eq_true, beq_iff_eq] at hpred
        have hstat : p.status = t.status :=
          (hcons t ht p hpm hpred.1.symm hpred.2.symm).symm
        rw [diffStep_eq, hp]
        simp only [diffStepH]
        rw [if_neg (fun hand => hand.1 (hstat.trans hand.2)),
          if_neg (fun hand => hnc t ht hand.1)]
  have h0 : diffCounts tasks tasks = ⟨0, 0⟩ := foldl_fixed _ tasks hstep ⟨0, 0⟩
  constructor
  · show (diffCounts tasks tasks).newTasks = 0
    rw [h0]
  · show (diffCounts tasks tasks).closedTasks = 0
    rw [h0]

/-- Counterexample to C3 as stated: a table holding one record with the
sentinel status `complite`, diffed against an identical previous table,
reports one new task, because the record's first match is itself, its status
is not `complete`, and the third differ branch fires. -/
theorem claim_C3_cex :
    ¬ ((diff_stat (some [recComplite]) [recComplite]
          (get_stat [recComplite])).newTasks = 0 ∧
       (diff_stat (some [recComplite]) [recComplite]
          (get_stat [recComplite])).closedTasks = 0) := by
  decide

/-- Witness for C3 at a concrete table: the single open task `recT` diffed
against itself yields zero new and zero closed tasks. -/
theorem claim_C3_witness :
    (diff_stat (some [recT]) [recT] stat0).newTasks = 0 ∧
    (diff_stat (some [recT]) [recT] stat0).closedTasks = 0 :=
  claim_C3 [recT] stat0 (by decide) (by decide)

theorem mem_uniqueVals_aux (l : List (Option String)) :
    ∀ (acc : List (Option String)) (x : Option String),
      x ∈ l.foldl (fun acc w => if w ∈ acc then acc else acc ++ [w]) acc ↔
        x ∈ acc ∨ x ∈ l := by
  induction l with
  | nil => intro acc x; simp
  | cons w ws ih =>
      intro acc x
      rw [List.foldl_cons, ih]
      by_cases hw : w ∈ acc
      · rw [if_pos hw]
        constructor
        · rintro (h | h)
          · exact Or.inl h
          · exact Or.inr (List.mem_cons_of_mem w h)
        · rintro (h | h)
          · exact Or.inl h
          · rcases List.mem_cons.mp h with heq | h
            · exact Or.inl (by rw [heq]; exact hw)
            · exact Or.inr h
      · rw [if_neg hw]
        simp only [List.mem_append, List.mem_cons, List.not_mem_nil, or_false]
        tauto

theorem mem_uniqueVals (l : List (Option String)) (x : Option String) :
    x ∈ uniqueVals l ↔ x ∈ l := by
  unfold uniqueVals
  rw [mem_uniqueVals_aux l [] x]
  simp

/-- C6: `get_stat` reports as opened tasks the number of records whose
status is not `complete` (an absent status counting as not complete),
initialises the new and closed counters to zero, and gives every distinct
non-absent worker a counter equal to that worker's number of not-complete
records — and nothing else appears among the worker counters. -/
theorem claim_C6 (tasks : List Record) :
    (get_stat tasks).openedTasks =
      tasks.countP (fun t => !(t.status == some "complete")) ∧
    (get_stat tasks).newTasks = 0 ∧
    (get_stat tasks).closedTasks = 0 ∧
    (∀ s : String, some s ∈ tasks.map Record.worker →
      (s, tasks.countP
        (fun t => t.worker == some s && !(t.status == some "complete"))) ∈
        (get_stat tasks).workerCounts) ∧
    (∀ s c, (s, c) ∈ (get_stat tasks).workerCounts →
      some s ∈ tasks.map Record.worker ∧
      c = tasks.countP
        (fun t => t.worker == some s && !(t.status == some "complete"))) := by
  refine ⟨?_, rfl, rfl, ?_, ?_⟩
  · show (tasks.filter _).length = _
    rw [List.countP_eq_length_filter]
  · intro s hs
    show _ ∈ (uniqueVals (tasks.map Record.worker)).filterMap _
    rw [List.mem_filterMap]
    refine ⟨some s, (mem_uniqueVals _ _).mpr hs, ?_⟩
    show some (s, workerOpenCount tasks s) = some _
    rw [workerOpenCount, List.countP_eq_length_filter]
  · intro s c hsc
    rcases List.mem_filterMap.mp hsc with ⟨a, ha, hfa⟩
    cases a with
    | none => cases hfa
    | some s' =>
        have hinj : (s', workerOpenCount tasks s') = (s, c) := Option.some.inj hfa
        rcases Prod.mk.inj hinj with ⟨h1, h2⟩
        subst h1
        constructor
        · exact (mem_uniqueVals _ _).mp ha
        · rw [← h2, List.countP_eq_length_filter]
          rfl

/-- Witness for C6 at a concrete table with one assigned and one unassigned
open task: the new counter is zero and worker `alice` receives a counter. -/
theorem claim_C6_witness :
    (get_stat [recW, recT]).newTasks = 0 ∧
    ("alice", [recW, recT].countP
        (fun t => t.worker == some "alice" && !(t.status == some "complete"))) ∈
      (get_stat [recW, recT]).workerCounts := by
  have h := claim_C6 [recW, recT]
  exact ⟨h.2.1, h.2.2.2.1 "alice" (by decide)⟩

theorem parseTopic_normalize (cfg : MTConfig) (tp : TopicVal) (proj : String)
    (parent : Option Record) :
    parseTopic cfg tp proj parent = parseNodes cfg tp.normalize proj parent := by
  match tp with
  | .absent => rfl
  | .single n =>
      show parseNode cfg n proj parent =
        parseNode cfg n proj parent ++ parseNodes cfg .nil proj parent
      rw [show parseNodes cfg .nil proj parent = [] from rfl, List.append_nil]
  | .tlist ns => rfl

mutual
theorem parseNode_tasks (cfg : MTConfig) (n : Node) (proj : String)
    (parent : Option Record) (h : allText n = true) :
    (parseNode cfg n proj parent).map (fun r => some r.task) = preTexts n := by
  match n with
  | .mk t sh bg ei tp =>
    rw [show allText (.mk t sh bg ei tp) = (t.isSome && allTextTopic tp) from rfl,
      Bool.and_eq_true] at h
    obtain ⟨ht, htp⟩ := h
    obtain ⟨tx, rfl⟩ := Option.isSome_iff_exists.mp ht
    rw [parseNode_eq,
      recordOf_some cfg proj parent (.mk (some tx) sh bg ei tp) tx rfl]
    show some tx :: (parseTopic cfg tp proj _).map (fun r => some r.task) =
      some tx :: preTextsTopic tp
    rw [parseTopic_tasks cfg tp proj _ htp]

theorem parseTopic_tasks (cfg : MTConfig) (tp : TopicVal) (proj : String)
    (parent : Option Record) (h : allTextTopic tp = true) :
    (parseTopic cfg tp proj parent).map (fun r => some r.task) =
      preTextsTopic tp := by
  match tp with
  | .absent => rfl
  | .single n => exact parseNode_tasks cfg n proj parent h
  | .tlist ns => exact parseNodes_tasks cfg ns proj parent h

theorem parseNodes_tasks (cfg : MTConfig) (ns : NodeList) (proj : String)
    (parent : Option Record) (h : allTextList ns = true) :
    (parseNodes cfg ns proj parent).map (fun r => some r.task) =
      preTextsList ns := by
  match ns with
  | .nil => rfl
  | .cons n rest =>
      rw [show allTextList (.cons n rest) = (allText n && allTextList rest)
        from rfl, Bool.and_eq_true] at h
      show ((parseNode cfg n proj parent) ++
        parseNodes cfg rest proj parent).map (fun r => some r.task) =
        preTexts n ++ preTextsList rest
      rw [List.map_append, parseNode_tasks cfg n proj parent h.1,
        parseNodes_tasks cfg rest proj parent h.2]
end

mutual
theorem parseNode_tasksAny (cfg : MTConfig) (n : Node) (proj : String)
    (parent : Option Record) :
    (parseNode cfg n proj parent).map (fun r => some r.task) =
      (preTexts n).filter (fun o => o.isSome) := by
  match n with
  | .mk t sh bg ei tp =>
    cases t with
    | none =>
        rw [parseNode_eq,
          recordOf_none cfg proj parent (.mk none sh bg ei tp) rfl]
        show (parseTopic cfg tp proj none).map (fun r => some r.task) =
          (preTextsTopic tp).filter (fun o => o.isSome)
        exact parseTopic_tasksAny cfg tp proj none
    | some tx =>
        rw [parseNode_eq,
          recordOf_some cfg proj parent (.mk (some tx) sh bg ei tp) tx rfl]
        show some tx :: (parseTopic cfg tp proj _).map (fun r => some r.task) =
          some tx :: (preTextsTopic tp).filter (fun o => o.isSome)
        rw [parseTopic_tasksAny cfg tp proj _]

theorem parseTopic_tasksAny (cfg : MTConfig) (tp : TopicVal) (proj : String)
    (parent : Option Record) :
    (parseTopic cfg tp proj parent).map (fun r => some r.task) =
      (preTextsTopic tp).filter (fun o => o.isSome) := by
  match tp with
  | .absent => rfl
  | .single n => exact parseNode_tasksAny cfg n proj parent
  | .tlist ns => exact parseNodes_tasksAny cfg ns proj parent

theorem parseNodes_tasksAny (cfg : MTConfig) (ns : NodeList) (proj : String)
    (parent : Option Record) :
    (parseNodes cfg ns proj parent).map (fun r => some r.task) =
      (preTextsList ns).filter (fun o => o.isSome) := by
  match ns with
  | .nil => rfl
  | .cons n rest =>
      show ((parseNode cfg n proj parent) ++
        parseNodes cfg rest proj parent).map (fun r => some r.task) =
        (preTexts n ++ preTextsList rest).filter (fun o => o.isSome)
      rw [List.map_append, List.filter_append,
        parseNode_tasksAny cfg n proj parent,
        parseNodes_tasksAny cfg rest proj parent]
end

/-- C7 as amended: for every tree, flattening yields exactly one record per
node carrying `@text`, in pre-order document order — a textless node yields
no record while its children are still traversed in order — so on trees
whose nodes all carry `@text` it is exactly one record per node in
pre-order (each node's record precedes its descendants' records); and the
`topic` slot is normalised to a child sequence, preserving order, before the
recursion. -/
theorem claim_C7 (cfg : MTConfig) (proj : String) :
    (∀ (n : Node) (parent : Option Record),
      (parseNode cfg n proj parent).map (fun r => some r.task) =
        (preTexts n).filter (fun o => o.isSome)) ∧
    (∀ (n : Node) (parent : Option Record), allText n = true →
      (parseNode cfg n proj parent).map (fun r => some r.task) = preTexts n) ∧
    (∀ (tp : TopicVal) (parent : Option Record),
      parseTopic cfg tp proj parent = parseNodes cfg tp.normalize proj parent) :=
  ⟨fun n parent => parseNode_tasksAny cfg n proj parent,
   fun n parent h => parseNode_tasks cfg n proj parent h,
   fun tp parent => parseTopic_normalize cfg tp proj parent⟩

/-- Counterexample to C7 as stated: flattening the two-node tree rooted at
`failB`, whose root lacks `@text`, yields one record, not one per node. -/
theorem claim_C7_cex :
    (parseNode cfgX failB "P" none).length ≠ (preTexts failB).length := by
  decide

/-- Witness for C7 at concrete trees: the tree rooted at the textless
`failB` flattens to the `@text`-bearing part of its pre-order text sequence,
the three-node all-text tree `rootF` flattens to its full pre-order text
sequence, and a single-element `topic` slot is normalised to a one-element
sequence. -/
theorem claim_C7_witness :
    (parseNode cfgX failB "P" none).map (fun r => some r.task) =
      (preTexts failB).filter (fun o => o.isSome) ∧
    (parseNode cfgX rootF "P" none).map (fun r => some r.task) =
      preTexts rootF ∧
    parseTopic cfgX (.single leafD) "P" none =
      parseNodes cfgX (TopicVal.normalize (.single leafD)) "P" none :=
  ⟨(claim_C7 cfgX "P").1 failB none,
   (claim_C7 cfgX "P").2.1 rootF none (by decide),
   (claim_C7 cfgX "P").2.2 (.single leafD) none⟩

theorem foldl_pyOr_nearest (m : List (String × String)) (f : Node → Option String)
    (anc : List Node) :
    anc.foldl (fun acc a => pyOr (mget m (f a)) acc) none =
      nearestResolved m f anc := by
  induction anc using List.reverseRecOn with
  | nil => rfl
  | append_singleton l a ih =>
      rw [List.foldl_append, List.foldl_cons, List.foldl_nil, ih]
      unfold nearestResolved
      rw [List.reverse_append, List.reverse_singleton, List.singleton_append]
      cases hta : truthy (mget m (f a)) with
      | true => simp [pyOr, hta]
      | false => simp [pyOr, hta]

theorem recordAlong_fields (cfg : MTConfig) (proj : String) (anc : List Node) :
    ∀ (parent : Option Record) (n : Node) (r : Record),
      (∀ a ∈ anc, a.text.isSome = true) →
      recordAlong cfg proj parent (anc ++ [n]) = some r →
      r.type = pyOr (mget cfg.shape_type_mapping n.shape)
        (anc.foldl (fun acc a => pyOr (mget cfg.shape_type_mapping a.shape) acc)
          (parentGet Record.type parent)) ∧
      r.status = pyOr (mget cfg.color_status_mapping n.bgColor)
        (anc.foldl (fun acc a => pyOr (mget cfg.color_status_mapping a.bgColor) acc)
          (parentGet Record.status parent)) := by
  induction anc with
  | nil =>
      intro parent n r _ hr
      have hr' : recordOf cfg proj parent n = some r := hr
      cases hn : n.text with
      | none => rw [recordOf_none cfg proj parent n hn] at hr'; cases hr'
      | some t =>
          rw [recordOf_some cfg proj parent n t hn] at hr'
          cases hr'
          exact ⟨rfl, rfl⟩
  | cons a anc ih =>
      intro parent n r hanc hr
      have hat : a.text.isSome = true := hanc a (List.mem_cons_self a anc)
      obtain ⟨ta, hta⟩ := Option.isSome_iff_exists.mp hat
      have hr' : recordAlong cfg proj (recordOf cfg proj parent a)
          (anc ++ [n]) = some r := hr
      have hres := ih (recordOf cfg proj parent a) n r
        (fun x hx => hanc x (List.mem_cons_of_mem a hx)) hr'
      rw [recordOf_some cfg proj parent a ta hta] at hres
      exact ⟨hres.1, hres.2⟩

theorem mem_parseNodes_of_get (cfg : MTConfig) (proj : String)
    (parent : Option Record) :
    ∀ (ns : NodeList) (i : Nat) (c : Node), ns.get? i = some c →
      ∀ r ∈ parseNode cfg c proj parent, r ∈ parseNodes cfg ns proj parent
  | .nil, i, c, h => by cases h
  | .cons n rest, 0, c, h => by
      cases h
      intro r hr
      have he : parseNodes cfg (.cons n rest) proj parent =
          parseNode cfg n proj parent ++ parseNodes cfg rest proj parent := rfl
      rw [he]
      exact List.mem_append_left _ hr
  | .cons n rest, i + 1, c, h => by
      intro r hr
      have he : parseNodes cfg (.cons n rest) proj parent =
          parseNode cfg n proj parent ++ parseNodes cfg rest proj parent := rfl
      rw [he]
      exact List.mem_append_right _
        (mem_parseNodes_of_get cfg proj parent rest i c h r hr)

theorem mem_parseNode_of_chain (cfg : MTConfig) (proj : String) :
    ∀ (path : List Nat) (root : Node) (chain : List Node)
      (parent : Option Record) (r : Record),
      nodeChain root path = some chain →
      recordAlong cfg proj parent chain = some r →
      r ∈ parseNode cfg root proj parent := by
  intro path
  induction path with
  | nil =>
      intro root chain parent r hc hr
      have hc' : some [root] = some chain := hc
      cases hc'
      have hr' : recordOf cfg proj parent root = some r := hr
      rw [parseNode_eq]
      refine List.mem_append_left _ ?_
      rw [hr']
      exact List.mem_singleton_self r
  | cons i is ih =>
      intro root chain parent r hc hr
      cases hcc : childAt root.topic i with
      | none =>
          have hc' : (childAt root.topic i).bind
              (fun c => (nodeChain c is).map (fun l => root :: l)) =
              some chain := hc
          rw [hcc] at hc'
          cases hc'
      | some c =>
          have hc' : (childAt root.topic i).bind
              (fun c => (nodeChain c is).map (fun l => root :: l)) =
              some chain := hc
          rw [hcc, Option.some_bind] at hc'
          obtain ⟨l, hl, rfl⟩ := Option.map_eq_some'.mp hc'
          have hr' : recordAlong cfg proj (recordOf cfg proj parent root) l =
              some r := hr
          have hmem := ih c l (recordOf cfg proj parent root) r hl hr'
          rw [parseNode_eq]
          refine List.mem_append_right _ ?_
          rw [parseTopic_normalize]
          exact mem_parseNodes_of_get cfg proj _ _ i c hcc r hmem

/-- C1: for a node reached along a chain of record-producing ancestors, when
the node's own shape (resp. colour) lookup resolves nothing, its record —
which does appear in the flattened output — carries as type (resp. status)
the value resolved by the nearest ancestor whose own lookup resolved one,
and an absent value when no ancestor in the chain ever resolved one. -/
theorem claim_C1 (cfg : MTConfig) (proj : String) (root : Node) (path : List Nat)
    (anc : List Node) (n : Node) (r : Record)
    (hchain : nodeChain root path = some (anc ++ [n]))
    (hanc : ∀ a ∈ anc, a.text.isSome = true)
    (hr : recordAlong cfg proj none (anc ++ [n]) = some r) :
    r ∈ parseNode cfg root proj none ∧
    (mget cfg.shape_type_mapping n.shape = none →
      r.type = nearestResolved cfg.shape_type_mapping Node.shape anc) ∧
    (mget cfg.color_status_mapping n.bgColor = none →
      r.status = nearestResolved cfg.color_status_mapping Node.bgColor anc) := by
  have hmem := mem_parseNode_of_chain cfg proj path root (anc ++ [n]) none r
    hchain hr
  have hfields := recordAlong_fields cfg proj anc none n r hanc hr
  refine ⟨hmem, ?_, ?_⟩
  · intro hsh
    rw [hfields.1, hsh]
    exact foldl_pyOr_nearest cfg.shape_type_mapping Node.shape anc
  · intro hbg
    rw [hfields.2, hbg]
    exact foldl_pyOr_nearest cfg.color_status_mapping Node.bgColor anc

/-- Witness for C1 at a concrete tree: in `rootF → midE → leafD`, only the
root has a mapped shape; the leaf's flattened record inherits type `bug`
through the unstyled middle node, matching the nearest resolved ancestor
value. -/
theorem claim_C1_witness :
    (Record.mk "D" "P" (some "bug") none none) ∈ parseNode cfgX rootF "P" none ∧
    (Record.mk "D" "P" (some "bug") none none).type =
      nearestResolved cfgX.shape_type_mapping Node.shape [rootF, midE] := by
  have h := claim_C1 cfgX "P" rootF [0, 0] [rootF, midE] leafD
    (Record.mk "D" "P" (some "bug") none none) rfl (by decide) rfl
  exact ⟨h.1, h.2.1 rfl⟩

end MT
